import Mathlib

/-!
Verification of the GitMesh repository-intelligence engine.

This file shallowly embeds the engine's core: the quality scorer, the
query builders, the search result assembly, the result cache, the rate
limiter, and the compatibility / merge-strategy engine
(`src/unnamed/part_000`, `src/unnamed/part_001`,
`src/app/lib/enhanced-github-api.ts`, `src/app/lib/ai-code-analyzer.ts`).

Modelling conventions:
- JavaScript numbers used for scores are modelled over `ℝ` (the scoring
  formulas use `Math.log10`); `Math.round` is Mathlib's `round : ℝ → ℤ`
  (round half up, matching `Math.round` on the reals).
- Timestamps are epoch milliseconds as `ℤ`; every function that reads
  `Date.now()` in the source takes the corresponding instant explicitly.
- `string.includes` is an explicit substring test on character lists.
- JavaScript `Set`-based deduplication (`[...new Set(xs)]`) is `setDedup`,
  which keeps the first occurrence of each element in order.
- JavaScript `Map` objects are association lists in insertion order.
- `Array.prototype.sort()` with no comparator (used on numeric repository
  ids) compares the decimal string forms lexicographically; it is modelled
  by a stable sort under that exact comparator.
-/

/-! ## JavaScript-style string and list helpers -/

/-- Boolean prefix test on character lists. -/
def isPrefixB : List Char → List Char → Bool
  | [], _ => true
  | _ :: _, [] => false
  | a :: as, b :: bs => a == b && isPrefixB as bs

/-- Boolean infix (contiguous substring) test on character lists. -/
def isInfixB (needle : List Char) : List Char → Bool
  | [] => isPrefixB needle []
  | hay@(_ :: t) => isPrefixB needle hay || isInfixB needle t

/-- JavaScript `hay.includes(needle)` on strings. -/
def jsIncludes (hay needle : String) : Bool :=
  isInfixB needle.data hay.data

/-- JavaScript `s.toLowerCase()` (on the character list, so that it
reduces inside the kernel; extensionally `String.toLower`). -/
def jsToLower (s : String) : String :=
  String.mk (s.data.map Char.toLower)

/-- One step of first-occurrence deduplication: append `x` unless present. -/
def insertDistinct (acc : List String) (x : String) : List String :=
  if x ∈ acc then acc else acc ++ [x]

/-- JavaScript `[...new Set(l)]`: deduplicate keeping first occurrences. -/
def setDedup (l : List String) : List String :=
  l.foldl insertDistinct []

theorem mem_foldl_insertDistinct :
    ∀ (l acc : List String) (x : String),
      x ∈ l.foldl insertDistinct acc ↔ x ∈ acc ∨ x ∈ l := by
  intro l
  induction l with
  | nil => intro acc x; simp
  | cons a t ih =>
      intro acc x
      simp only [List.foldl_cons, ih, insertDistinct]
      by_cases hx : a ∈ acc
      · simp only [if_pos hx, List.mem_cons]
        constructor
        · rintro (h | h) <;> tauto
        · rintro (h | rfl | h) <;> tauto
      · simp only [if_neg hx, List.mem_append, List.mem_singleton, List.mem_cons]
        tauto

theorem mem_setDedup (l : List String) (x : String) :
    x ∈ setDedup l ↔ x ∈ l := by
  simp [setDedup, mem_foldl_insertDistinct]

theorem nodup_foldl_insertDistinct :
    ∀ (l acc : List String), acc.Nodup → (l.foldl insertDistinct acc).Nodup := by
  intro l
  induction l with
  | nil => intro acc h; simpa
  | cons a t ih =>
      intro acc h
      simp only [List.foldl_cons]
      apply ih
      unfold insertDistinct
      by_cases hx : a ∈ acc
      · simpa [hx]
      · simp only [if_neg hx]
        exact List.Nodup.append h (List.nodup_singleton a)
          (by simpa [List.Disjoint] using fun x hxa hxs => hx (by simpa [hxs] using hxa))

theorem setDedup_nodup (l : List String) : (setDedup l).Nodup :=
  nodup_foldl_insertDistinct l [] List.nodup_nil

/-! ## Epoch milliseconds to ISO-8601 calendar date

`new Date(ms).toISOString().split('T')[0]` for the proleptic Gregorian
calendar (UTC), as used by the activity-bucket thresholds. -/

/-- Days since 1970-01-01 for an epoch-millisecond instant (floor). -/
def msToDays (ms : ℤ) : ℤ := Int.fdiv ms 86400000

/-- Civil (year, month, day) from days since 1970-01-01. -/
def civilFromDays (z0 : ℤ) : ℤ × ℕ × ℕ :=
  let z := z0 + 719468
  let era := Int.fdiv z 146097
  let doe := (z - era * 146097).toNat
  let yoe := (doe - doe / 1460 + doe / 36524 - doe / 146096) / 365
  let y : ℤ := (yoe : ℤ) + era * 400
  let doy := doe - (365 * yoe + yoe / 4 - yoe / 100)
  let mp := (5 * doy + 2) / 153
  let d := doy - (153 * mp + 2) / 5 + 1
  let m := if mp < 10 then mp + 3 else mp - 9
  (if m ≤ 2 then y + 1 else y, m, d)

/-- Zero-pad a numeral below 100 to two digits. -/
def pad2 (n : ℕ) : String :=
  if n < 10 then "0" ++ toString n else toString n

/-- The `YYYY-MM-DD` part of `new Date(ms).toISOString()`. -/
def isoDate (ms : ℤ) : String :=
  let c := civilFromDays (msToDays ms)
  toString c.1 ++ "-" ++ pad2 c.2.1 ++ "-" ++ pad2 c.2.2

/-! ## Data model (`src/unnamed/part_001`, `Repository` and filters) -/

/-- The `Repository` record of `github-api` (raw search items carry the
same fields plus `pushed_at` and `license`, included here; `updated_at`
is carried as its parsed epoch-millisecond instant). -/
structure Repo where
  id : ℕ
  name : String
  full_name : String
  description : Option String
  html_url : String
  language : Option String
  stargazers_count : ℕ
  forks_count : ℕ
  open_issues_count : ℕ
  updated_at_ms : ℤ
  created_at : String
  topics : List String
  owner_login : String
  owner_avatar_url : String
  qualityScore : Option ℤ
  pushed_at : String
  license_name : Option String
deriving DecidableEq

/-- The `SearchFilters` interface. Absent fields are `none`. -/
structure SearchFilters where
  language : Option String
  minStars : Option ℕ
  maxStars : Option ℕ
  topics : Option (List String)
  hasIssues : Option Bool
  hasWiki : Option Bool
  hasPages : Option Bool
  archived : Option Bool
  fork : Option Bool
  sortBy : Option String
  order : Option String
deriving DecidableEq

/-- Size buckets of `EnhancedSearchFilters.size`. -/
inductive SizeBucket | small | medium | large
deriving DecidableEq

/-- Activity buckets of `EnhancedSearchFilters.activity`. -/
inductive ActivityBucket | active | maintained | stale
deriving DecidableEq

/-- Code-quality buckets of `EnhancedSearchFilters.codeQuality`. -/
inductive QualityBucket | excellent | good | fair | poor
deriving DecidableEq

/-- The `EnhancedSearchFilters` interface. -/
structure EnhancedSearchFilters extends SearchFilters where
  vulnerabilities : Option String
  license : Option (List String)
  size : Option SizeBucket
  activity : Option ActivityBucket
  codeQuality : Option QualityBucket
  teamSize : Option String
deriving DecidableEq

/-! ## GitHubSearchEngine (`src/unnamed/part_001`) -/

/-- `buildSmartQuery(query, filters)`: free text, `-user:` exclusions, then
the structured filter terms, joined by single spaces (empty terms dropped
by `filter(Boolean)`; every pushed term here is non-empty). -/
def buildSmartQuery (exclusionList : List String) (query : String)
    (filters : SearchFilters) : String :=
  let parts : List String :=
    [query]
    ++ exclusionList.map (fun user => "-user:" ++ user)
    ++ (match filters.language with
        | some l => ["language:" ++ l]
        | none => [])
    ++ (match filters.minStars with
        | some n => ["stars:>=" ++ toString n]
        | none => [])
    ++ (match filters.maxStars with
        | some n => ["stars:<=" ++ toString n]
        | none => [])
    ++ (match filters.topics with
        | some ts => ts.map (fun t => "topic:" ++ t)
        | none => [])
    ++ (match filters.hasIssues with
        | some b => [if b then "has:issues" else "-has:issues"]
        | none => [])
    ++ (match filters.hasWiki with
        | some b => [if b then "has:wiki" else "-has:wiki"]
        | none => [])
    ++ (match filters.hasPages with
        | some b => [if b then "has:pages" else "-has:pages"]
        | none => [])
    ++ (match filters.archived with
        | some b => [if b then "archived:true" else "archived:false"]
        | none => [])
    ++ (match filters.fork with
        | some b => [if b then "fork:true" else "fork:false"]
        | none => [])
  String.intercalate " " (parts.filter (fun p => p ≠ ""))

/-- `calculateQualityScore(repo)`: the standard 0-100 quality score.
`now` is the `Date.now()` instant. -/
noncomputable def calculateQualityScore (now : ℤ) (repo : Repo) : ℤ :=
  let starScore : ℝ := min (Real.logb 10 ((repo.stargazers_count : ℝ) + 1) * 10) 30
  let forkScore : ℝ := min (Real.logb 10 ((repo.forks_count : ℝ) + 1) * 10) 20
  let daysSinceUpdate : ℝ := ((now : ℝ) - (repo.updated_at_ms : ℝ)) / (1000 * 60 * 60 * 24)
  let activityScore : ℝ := max (20 - daysSinceUpdate / 30) 0
  let hasReadme : Bool :=
    match repo.description with
    | none => false
    | some d => decide (50 < d.length)
  let hasTopics : Bool := decide (0 < repo.topics.length)
  let docScore : ℝ := (if hasReadme then 15 else 0) + (if hasTopics then 5 else 0)
  let issueRate : ℝ := (repo.open_issues_count : ℝ) / ((repo.stargazers_count : ℝ) + 1)
  let issueScore : ℝ := max (10 - issueRate * 50) 0
  round (min (starScore * 0.3 + forkScore * 0.2 + activityScore * 0.2
      + docScore * 0.2 + issueScore * 0.1) 100)

/-- One item of `enrichRepositories`: copy the metadata fields and attach
the freshly computed quality score. -/
noncomputable def enrichRepository (now : ℤ) (repo : Repo) : Repo :=
  { repo with qualityScore := some (calculateQualityScore now repo) }

/-- The `SearchResult` record of the standard search. -/
structure StdSearchResult where
  repositories : List Repo
  totalCount : ℕ
  hasMore : Bool
  nextPage : Option ℕ

/-- Result assembly of `searchRepositories` after the external call
returned `items` and `totalCount` (page size 30). -/
noncomputable def searchRepositories (now : ℤ) (items : List Repo)
    (totalCount : ℕ) (page : ℕ) : StdSearchResult :=
  { repositories := items.map (enrichRepository now)
    totalCount := totalCount
    hasMore := items.length == 30
    nextPage := if items.length == 30 then some (page + 1) else none }

/-- The engine state observable by the exclusion-list operations. -/
structure EngineState where
  exclusionList : List String
deriving DecidableEq

/-- The engine starts with `exclusionList = ['Gzeu']`. -/
def initialEngineState : EngineState := ⟨["Gzeu"]⟩

/-- `addToExclusionList(username)`. -/
def addToExclusionList (s : EngineState) (username : String) : EngineState :=
  if username ∈ s.exclusionList then s else ⟨s.exclusionList ++ [username]⟩

/-- `removeFromExclusionList(username)`. -/
def removeFromExclusionList (s : EngineState) (username : String) : EngineState :=
  ⟨s.exclusionList.filter (fun user => user != username)⟩

/-- `getExclusionList()` returns a copy of the list and leaves the engine
state untouched (value semantics model the "fresh copy"). -/
def getExclusionList (s : EngineState) : List String × EngineState :=
  (s.exclusionList, s)

/-- A sequence of exclusion-list mutations. -/
inductive ExclusionOp
  | add (username : String)
  | remove (username : String)

/-- Apply one exclusion-list operation. -/
def applyExclusionOp (s : EngineState) : ExclusionOp → EngineState
  | .add u => addToExclusionList s u
  | .remove u => removeFromExclusionList s u

/-- Apply a sequence of exclusion-list operations. -/
def applyExclusionOps (s : EngineState) (ops : List ExclusionOp) : EngineState :=
  ops.foldl applyExclusionOp s

/-! ## EnhancedGitHubAPI (`src/app/lib/enhanced-github-api.ts`) -/

/-- An enriched repository as produced by `enhancedEnrichment` (the
`Repository` fields plus the enhanced metadata). -/
structure EnhancedRepo where
  id : ℕ
  name : String
  full_name : String
  description : Option String
  html_url : String
  language : Option String
  stargazers_count : ℕ
  forks_count : ℕ
  open_issues_count : ℕ
  updated_at_ms : ℤ
  created_at : String
  topics : List String
  owner_login : String
  owner_avatar_url : String
  qualityScore : Option ℤ
  languages : List String
  contributorCount : ℕ
  lastCommit : String
  license : Option String
deriving DecidableEq

/-- The `SearchResult` record of the enhanced search. -/
structure EnhSearchResult where
  repositories : List EnhancedRepo
  totalCount : ℕ
  hasMore : Bool
  nextPage : Option ℕ
deriving DecidableEq

/-- JSON string literal (escaping is irrelevant for the modelled keys). -/
def jsonStr (s : String) : String := "\"" ++ s ++ "\""

/-- JSON array of string literals. -/
def jsonStrArr (l : List String) : String :=
  "[" ++ String.intercalate "," (l.map jsonStr) ++ "]"

/-- The name of a size bucket as it appears in the filter object. -/
def SizeBucket.text : SizeBucket → String
  | .small => "small"
  | .medium => "medium"
  | .large => "large"

/-- The name of an activity bucket as it appears in the filter object. -/
def ActivityBucket.text : ActivityBucket → String
  | .active => "active"
  | .maintained => "maintained"
  | .stale => "stale"

/-- The name of a quality bucket as it appears in the filter object. -/
def QualityBucket.text : QualityBucket → String
  | .excellent => "excellent"
  | .good => "good"
  | .fair => "fair"
  | .poor => "poor"

/-- `JSON.stringify(filters)` with fields emitted in interface declaration
order (absent fields are omitted, as `JSON.stringify` omits `undefined`). -/
def serializeFilters (f : EnhancedSearchFilters) : String :=
  let fields : List (Option String) :=
    [ f.language.map (fun v => jsonStr "language" ++ ":" ++ jsonStr v)
    , f.minStars.map (fun v => jsonStr "minStars" ++ ":" ++ toString v)
    , f.maxStars.map (fun v => jsonStr "maxStars" ++ ":" ++ toString v)
    , f.topics.map (fun v => jsonStr "topics" ++ ":" ++ jsonStrArr v)
    , f.hasIssues.map (fun v => jsonStr "hasIssues" ++ ":" ++ (if v then "true" else "false"))
    , f.hasWiki.map (fun v => jsonStr "hasWiki" ++ ":" ++ (if v then "true" else "false"))
    , f.hasPages.map (fun v => jsonStr "hasPages" ++ ":" ++ (if v then "true" else "false"))
    , f.archived.map (fun v => jsonStr "archived" ++ ":" ++ (if v then "true" else "false"))
    , f.fork.map (fun v => jsonStr "fork" ++ ":" ++ (if v then "true" else "false"))
    , f.sortBy.map (fun v => jsonStr "sortBy" ++ ":" ++ jsonStr v)
    , f.order.map (fun v => jsonStr "order" ++ ":" ++ jsonStr v)
    , f.vulnerabilities.map (fun v => jsonStr "vulnerabilities" ++ ":" ++ jsonStr v)
    , f.license.map (fun v => jsonStr "license" ++ ":" ++ jsonStrArr v)
    , f.size.map (fun v => jsonStr "size" ++ ":" ++ jsonStr v.text)
    , f.activity.map (fun v => jsonStr "activity" ++ ":" ++ jsonStr v.text)
    , f.codeQuality.map (fun v => jsonStr "codeQuality" ++ ":" ++ jsonStr v.text)
    , f.teamSize.map (fun v => jsonStr "teamSize" ++ ":" ++ jsonStr v) ]
  "\x7b" ++ String.intercalate "," (fields.filterMap id) ++ "\x7d"

/-- `buildEnhancedQuery(query, filters)`. The activity thresholds read the
current time (`nowMs` is the `new Date()` instant); the final fixed terms
exclude personal repositories and common noise. Parts are joined with a
single space (no emptiness filtering in this builder). -/
def buildEnhancedQuery (nowMs : ℤ) (query : String)
    (filters : EnhancedSearchFilters) : String :=
  let parts : List String :=
    [query]
    ++ (match filters.license with
        | some ls => ls.map (fun l => "license:" ++ l)
        | none => [])
    ++ (match filters.size with
        | some .small => ["size:<1000"]
        | some .medium => ["size:1000..10000"]
        | some .large => ["size:>10000"]
        | none => [])
    ++ (match filters.activity with
        | some .active => ["pushed:>" ++ isoDate (nowMs - 30 * 24 * 60 * 60 * 1000)]
        | some .maintained => ["pushed:>" ++ isoDate (nowMs - 90 * 24 * 60 * 60 * 1000)]
        | some .stale => ["pushed:" ++ ("<" ++ isoDate (nowMs - 365 * 24 * 60 * 60 * 1000))]
        | none => [])
    ++ ["-user:Gzeu", "-user:octocat", "NOT tutorial", "NOT example"]
  String.intercalate " " parts

/-- `calculateEnhancedQualityScore(repo, languages, contributors)`:
unweighted sum of capped components, clamped to 100 and rounded. -/
noncomputable def calculateEnhancedQualityScore (now : ℤ) (repo : Repo)
    (languages : List (String × ℕ)) (contributors : List String) : ℤ :=
  let starPart : ℝ := min (Real.logb 10 ((repo.stargazers_count : ℝ) + 1) * 5) 25
  let daysSinceUpdate : ℝ := ((now : ℝ) - (repo.updated_at_ms : ℝ)) / (1000 * 60 * 60 * 24)
  let activityPart : ℝ := max (20 - daysSinceUpdate / 7) 0
  let descPart : ℝ :=
    match repo.description with
    | none => 0
    | some d => if 20 < d.length then 10 else 0
  let topicsPart : ℝ := if 0 < repo.topics.length then 5 else 0
  let contributorPart : ℝ := min ((contributors.length : ℝ) * 2) 15
  let forkPart : ℝ := min ((repo.forks_count : ℝ) / 10) 5
  let languagePart : ℝ := min ((languages.length : ℝ) * 2) 10
  let issueRate : ℝ := (repo.open_issues_count : ℝ) / ((repo.stargazers_count : ℝ) + 1)
  let issuePart : ℝ := max (10 - issueRate * 50) 0
  round (min (starPart + activityPart + descPart + topicsPart
      + contributorPart + forkPart + languagePart + issuePart) 100)

/-- One item of `enhancedEnrichment`: `langOf` and `contribOf` model the
per-repository language and contributor lookups (failures already degraded
to empty results by the `catch` handlers). -/
noncomputable def enhancedEnrichOne (now : ℤ)
    (langOf : String → List (String × ℕ)) (contribOf : String → List String)
    (repo : Repo) : EnhancedRepo :=
  let languages := langOf repo.full_name
  let contributors := contribOf repo.full_name
  { id := repo.id
    name := repo.name
    full_name := repo.full_name
    description := repo.description
    html_url := repo.html_url
    language := repo.language
    stargazers_count := repo.stargazers_count
    forks_count := repo.forks_count
    open_issues_count := repo.open_issues_count
    updated_at_ms := repo.updated_at_ms
    created_at := repo.created_at
    topics := repo.topics
    owner_login := repo.owner_login
    owner_avatar_url := repo.owner_avatar_url
    qualityScore := some (calculateEnhancedQualityScore now repo languages contributors)
    languages := languages.map (fun p => p.1)
    contributorCount := contributors.length
    lastCommit := repo.pushed_at
    license := repo.license_name }

/-- The quality threshold of each `codeQuality` bucket. -/
def qualityThreshold : QualityBucket → ℤ
  | .excellent => 85
  | .good => 70
  | .fair => 55
  | .poor => 0

/-- `applyAdvancedFilters(repos, filters)`: drop repositories whose
(quality score or 0) is below the requested bucket threshold. -/
def applyAdvancedFilters (repos : List EnhancedRepo)
    (filters : EnhancedSearchFilters) : List EnhancedRepo :=
  repos.filter (fun repo =>
    match filters.codeQuality with
    | some q => !decide (repo.qualityScore.getD 0 < qualityThreshold q)
    | none => true)

/-- Result assembly of `enhancedSearch` after the external call returned
`items` and `totalCount` (page size 50): enrich, post-filter, then derive
`hasMore`/`nextPage` from the post-filtered list. -/
noncomputable def enhancedSearchCore (now : ℤ)
    (langOf : String → List (String × ℕ)) (contribOf : String → List String)
    (items : List Repo) (totalCount : ℕ)
    (filters : EnhancedSearchFilters) (page : ℕ) : EnhSearchResult :=
  let enrichedRepos := items.map (enhancedEnrichOne now langOf contribOf)
  let filteredRepos := applyAdvancedFilters enrichedRepos filters
  { repositories := filteredRepos
    totalCount := totalCount
    hasMore := filteredRepos.length == 50
    nextPage := if filteredRepos.length == 50 then some (page + 1) else none }

/-- One cache entry: the stored value plus its insertion instant. -/
structure CacheEntry where
  data : EnhSearchResult
  timestamp : ℤ
deriving DecidableEq

/-- The cache TTL: `cacheTimeout = 1000 * 60 * 15` milliseconds. -/
def cacheTimeout : ℤ := 1000 * 60 * 15

/-- `Map.get` on an insertion-ordered association list. -/
def mapGet (m : List (String × CacheEntry)) (k : String) : Option CacheEntry :=
  (m.find? (fun p => p.1 == k)).map (fun p => p.2)

/-- `Map.set`: replace in place when the key exists, else append. -/
def mapSet (m : List (String × CacheEntry)) (k : String) (v : CacheEntry) :
    List (String × CacheEntry) :=
  if m.any (fun p => p.1 == k) then
    m.map (fun p => if p.1 == k then (k, v) else p)
  else
    m ++ [(k, v)]

theorem mapGet_mapSet_self (m : List (String × CacheEntry)) (k : String)
    (v : CacheEntry) : mapGet (mapSet m k v) k = some v := by
  unfold mapSet
  by_cases h : m.any (fun p => p.1 == k)
  · simp only [if_pos h]
    induction m with
    | nil => simp at h
    | cons p t ih =>
        by_cases hp : p.1 == k
        · simp [mapGet, List.find?, hp]
        · have ht : t.any (fun p => p.1 == k) := by
            simpa [List.any_cons, hp] using h
          simpa [mapGet, List.find?, hp] using ih ht
  · simp only [if_neg h]
    have hnone : m.find? (fun p => p.1 == k) = none := by
      rw [List.find?_eq_none]
      intro p hp
      intro hc
      exact h (List.any_of_mem hp hc)
    unfold mapGet
    rw [List.find?_append, hnone]
    simp [List.find?]

/-- The cache key of `enhancedSearch`. -/
def cacheKey (query : String) (filters : EnhancedSearchFilters) (page : ℕ) : String :=
  "search-" ++ query ++ "-" ++ serializeFilters filters ++ "-" ++ toString page

/-- One run of `enhancedSearch` over the in-memory cache. `now` is the
instant of the freshness check, `now2` the instant of the cache write; the
returned flag records whether the rate-limit wait and external call were
performed. On a hit within the TTL the cached data is returned at once. -/
noncomputable def enhancedSearchRun (now now2 : ℤ)
    (langOf : String → List (String × ℕ)) (contribOf : String → List String)
    (cache : List (String × CacheEntry)) (query : String)
    (filters : EnhancedSearchFilters) (page : ℕ)
    (items : List Repo) (totalCount : ℕ) :
    EnhSearchResult × List (String × CacheEntry) × Bool :=
  let key := cacheKey query filters page
  let fresh := enhancedSearchCore now langOf contribOf items totalCount filters page
  match mapGet cache key with
  | some cached =>
      if now - cached.timestamp < cacheTimeout then
        (cached.data, cache, false)
      else
        (fresh, mapSet cache key ⟨fresh, now2⟩, true)
  | none => (fresh, mapSet cache key ⟨fresh, now2⟩, true)

/-! ## RateLimitManager (`src/app/lib/enhanced-github-api.ts`)

`waitIfNeeded` is modelled as a timed step: `now` is the single
`Date.now()` read at the top of the body, `tEnd` the fresh `Date.now()`
recorded as the new last-request time after the (possible) suspensions.
A step is *valid* when `tEnd` is at least `now` plus the two requested
waits (`setTimeout` never fires early). A *sequential* trace is one where
each call runs to completion before the next one starts; overlapping
calls are modelled separately by letting both calls read the same shared
state before either writes it back. -/

/-- The private state of `RateLimitManager`. -/
structure RLState where
  lastRequestTime : ℤ
  requestCount : ℤ
  resetTime : ℤ
  remaining : ℤ
deriving DecidableEq

/-- The initial state of a fresh `RateLimitManager`. -/
def rlInit : RLState := ⟨0, 0, 0, 5000⟩

/-- The counter reset performed when `now` has passed `resetTime`. -/
def rlReset (s : RLState) (now : ℤ) : RLState :=
  if s.resetTime < now then { s with requestCount := 0, remaining := 5000 } else s

/-- The quota wait requested when at most 100 calls remain. -/
def rlQuotaWait (s : RLState) (now : ℤ) : ℤ :=
  if (rlReset s now).remaining ≤ 100 then max 0 (s.resetTime - now) else 0

/-- The minimum-spacing wait (100 ms measured from the last request,
using the `now` captured at the top of the body). -/
def rlSpacingWait (s : RLState) (now : ℤ) : ℤ :=
  if now - s.lastRequestTime < 100 then 100 - (now - s.lastRequestTime) else 0

/-- The total suspension requested by one `waitIfNeeded` body. -/
def rlRequiredWait (s : RLState) (now : ℤ) : ℤ :=
  rlQuotaWait s now + rlSpacingWait s now

/-- A call that starts its body at `now` may record its completion
instant `tEnd` only if every requested suspension has elapsed. -/
def rlValidStep (s : RLState) (now tEnd : ℤ) : Prop :=
  now + rlRequiredWait s now ≤ tEnd

/-- The state update of one completed `waitIfNeeded` call. -/
def waitIfNeeded (s : RLState) (now tEnd : ℤ) : RLState :=
  let s1 := rlReset s now
  { s1 with
    lastRequestTime := tEnd
    requestCount := s1.requestCount + 1
    remaining := s1.remaining - 1 }

/-- Recorded last-request timestamps of a sequential trace of calls,
each given as its `(now, tEnd)` pair. -/
def rlTimestamps (s : RLState) : List (ℤ × ℤ) → List ℤ
  | [] => []
  | (now, tEnd) :: rest => tEnd :: rlTimestamps (waitIfNeeded s now tEnd) rest

/-- Validity of a sequential trace of calls. -/
def rlValidTrace (s : RLState) : List (ℤ × ℤ) → Prop
  | [] => True
  | (now, tEnd) :: rest =>
      rlValidStep s now tEnd ∧ rlValidTrace (waitIfNeeded s now tEnd) rest

/-- Two overlapping `waitIfNeeded` calls: both bodies run their
synchronous prefix (reading the shared `lastRequestTime`) before either
call resumes from its suspension and writes the state back. The recorded
timestamps are the two completion instants. -/
def rlInterleavedTimestamps (s : RLState) (nowA nowB tEndA tEndB : ℤ) : ℤ × ℤ :=
  (tEndA, tEndB)

/-- Validity of the overlapped schedule: each call's completion instant
honours the waits it computed from the state it observed, which for both
calls is the initial shared state `s`. -/
def rlInterleavedValid (s : RLState) (nowA nowB tEndA tEndB : ℤ) : Prop :=
  rlValidStep s nowA tEndA ∧ rlValidStep s nowB tEndB

/-! ## AICodeAnalyzer (`src/app/lib/ai-code-analyzer.ts`) -/

/-- `calculateFrameworkCompatibility` (placeholder heuristic). -/
def calculateFrameworkCompatibility (frameworks : List String) : ℤ := 85

/-- `analyzeDependencyConflicts` (placeholder heuristic). -/
def analyzeDependencyConflicts : ℤ := 90

/-- `analyzeArchitecturalPatterns` (placeholder heuristic). -/
def analyzeArchitecturalPatterns : ℤ := 80

/-- `getCompatibilityScore(repos)`: 100 for fewer than two repositories,
otherwise the rounded weighted average of the three sub-scores. -/
noncomputable def getCompatibilityScore (repos : List Repo) : ℤ :=
  if repos.length < 2 then 100
  else
    round ((calculateFrameworkCompatibility (repos.map (fun _ => "react")) : ℝ) * 0.4
      + (analyzeDependencyConflicts : ℝ) * 0.4
      + (analyzeArchitecturalPatterns : ℝ) * 0.2)

/-! ## analyzeProjectCompatibility (`src/app/lib/enhanced-github-api.ts`) -/

/-- A compatibility conflict record. -/
structure Conflict where
  type : String
  description : String
  severity : String
deriving DecidableEq

/-- The result of `analyzeLicenseCompatibility` (placeholder: no conflicts). -/
structure LicenseCompatibility where
  conflicts : List Conflict
deriving DecidableEq

/-- `detectFrameworksDetailed` (placeholder: empty). -/
def detectFrameworksDetailed (repos : List Repo) : List String := []

/-- `analyzeLicenseCompatibility` (placeholder: no conflicts). -/
def analyzeLicenseCompatibility (repos : List Repo) : LicenseCompatibility := ⟨[]⟩

/-- `analyzeDependencyCompatibility` (placeholder: no conflicts). -/
def analyzeDependencyCompatibility (repos : List Repo) : List Conflict := []

/-- `calculateCompatibilityScore` (placeholder: 85). -/
def calculateCompatibilityScore (frameworks : List String)
    (licenses : LicenseCompatibility) (dependencies : List Conflict) : ℤ := 85

/-- `generateCompatibilitySuggestions` (placeholder). -/
def generateCompatibilitySuggestions (frameworks : List String)
    (dependencies : List Conflict) : List String :=
  ["Projects appear to be compatible"]

/-- The result record of `analyzeProjectCompatibility`. -/
structure CompatibilityReport where
  compatibilityScore : ℤ
  conflicts : List Conflict
  suggestions : List String
deriving DecidableEq

/-- `analyzeProjectCompatibility(repos)`: fewer than two repositories
yield the neutral high-compatibility result with a guidance suggestion. -/
def analyzeProjectCompatibility (repos : List Repo) : CompatibilityReport :=
  if repos.length < 2 then
    { compatibilityScore := 100
      conflicts := []
      suggestions := ["Add more repositories to analyze compatibility"] }
  else
    let frameworks := detectFrameworksDetailed repos
    let licenseCompatibility := analyzeLicenseCompatibility repos
    let dependencyConflicts := analyzeDependencyCompatibility repos
    { compatibilityScore :=
        calculateCompatibilityScore frameworks licenseCompatibility dependencyConflicts
      conflicts := dependencyConflicts ++ licenseCompatibility.conflicts
      suggestions := generateCompatibilitySuggestions frameworks dependencyConflicts }

/-! ## ProjectCombinator (`src/unnamed/part_000`) -/

/-- The `ProjectStructure` record. -/
structure ProjectStructure where
  folders : List String
  entryPoints : List String
  configFiles : List String
  assetFolders : List String
deriving DecidableEq

/-- The `GeneratedFile` record. -/
structure GeneratedFile where
  path : String
  content : String
  type : String
  source : String
deriving DecidableEq

/-- The `DeploymentConfig` record. -/
structure DeploymentConfig where
  platform : String
  envVars : List String
  buildCommand : String
  outputDirectory : String
deriving DecidableEq

/-- The `MergeStrategy` record (the closed policy enums are carried as
their literal strings). -/
structure MergeStrategy where
  type : String
  targetFramework : String
  conflictResolution : String
  componentMerging : String
  dependencyStrategy : String
deriving DecidableEq

/-- The `RepositoryAnalysis` record. -/
structure RepositoryAnalysis where
  repository : Repo
  framework : String
  components : List String
  dependencies : List String
  structure' : ProjectStructure
  features : List String
  codeQuality : ℤ
deriving DecidableEq

/-- The `CombinationRequest` record. -/
structure CombinationRequest where
  repositories : List Repo
  projectName : String
  description : Option String
  targetFramework : Option String
  features : List String
deriving DecidableEq

/-- The `CombinationResult` record. Scripts are an insertion-ordered
key-value list. -/
structure CombinationResult where
  id : String
  name : String
  description : String
  structure' : ProjectStructure
  files : List GeneratedFile
  dependencies : List String
  scripts : List (String × String)
  instructions : List String
  deploymentConfig : DeploymentConfig
deriving DecidableEq

/-- `detectFramework(repo)`: first keyword hit in the lowercased
concatenation of name, description (or empty) and topics. -/
def detectFramework (repo : Repo) : String :=
  let name := jsToLower repo.name
  let description := jsToLower (repo.description.getD "")
  let topics := repo.topics.map (fun t => jsToLower t)
  let allText := name ++ " " ++ description ++ " " ++ String.intercalate " " topics
  if jsIncludes allText "nextjs" || jsIncludes allText "next.js" then "nextjs"
  else if jsIncludes allText "remix" then "remix"
  else if jsIncludes allText "react" then "react"
  else if jsIncludes allText "vue" then "vue"
  else if jsIncludes allText "angular" then "angular"
  else if jsIncludes allText "express" then "express"
  else if jsIncludes allText "fastapi" then "fastapi"
  else if jsIncludes allText "django" then "django"
  else "unknown"

/-- The component keyword patterns of `extractComponents`. -/
def componentPatterns : List String :=
  [ "authentication", "auth", "login"
  , "dashboard", "admin", "panel"
  , "chat", "messaging", "communication"
  , "payment", "stripe", "billing"
  , "database", "orm", "prisma"
  , "api", "rest", "graphql"
  , "ui", "components", "design-system"
  , "charts", "visualization", "analytics"
  , "file-upload", "storage", "aws"
  , "email", "notifications", "smtp" ]

/-- `extractComponents(repo)`: keep each pattern that is a topic or a
substring of the lowercased description. -/
def extractComponents (repo : Repo) : List String :=
  let topics := repo.topics
  let description := repo.description.getD ""
  componentPatterns.filter (fun pattern =>
    topics.contains pattern || jsIncludes (jsToLower description) pattern)

/-- Framework-specific dependency seeds of `extractDependencies`. -/
def frameworkDeps (framework : String) : List String :=
  if framework = "nextjs" then ["next", "react", "react-dom"]
  else if framework = "remix" then ["@remix-run/node", "@remix-run/react"]
  else if framework = "react" then ["react", "react-dom"]
  else if framework = "vue" then ["vue"]
  else []

/-- Topic-triggered dependency extras of `extractDependencies`. -/
def topicDep (topic : String) : List String :=
  let t := jsToLower topic
  if t = "typescript" then ["typescript"]
  else if t = "tailwindcss" then ["tailwindcss"]
  else if t = "prisma" then ["prisma"]
  else if t = "stripe" then ["stripe"]
  else if t = "framer-motion" then ["framer-motion"]
  else []

/-- `extractDependencies(repo)`: framework seeds, then topic extras,
deduplicated (`[...new Set(deps)]`). -/
def extractDependencies (repo : Repo) : List String :=
  setDedup (frameworkDeps (detectFramework repo)
    ++ repo.topics.foldr (fun t acc => topicDep t ++ acc) [])

/-- The default `nextjs` project structure. -/
def nextjsStructure : ProjectStructure :=
  { folders := ["app", "components", "lib", "public", "styles"]
    entryPoints := ["app/page.tsx", "app/layout.tsx"]
    configFiles := ["next.config.js", "tailwind.config.js"]
    assetFolders := ["public", "assets"] }

/-- The default `remix` project structure. -/
def remixStructure : ProjectStructure :=
  { folders := ["app", "app/routes", "app/components", "app/lib", "public"]
    entryPoints := ["app/root.tsx", "app/routes/_index.tsx"]
    configFiles := ["remix.config.js", "tailwind.config.js"]
    assetFolders := ["public"] }

/-- The default `react` project structure (also the fallback). -/
def reactStructure : ProjectStructure :=
  { folders := ["src", "src/components", "src/hooks", "src/utils", "public"]
    entryPoints := ["src/App.tsx", "src/main.tsx"]
    configFiles := ["vite.config.ts", "tailwind.config.js"]
    assetFolders := ["public", "src/assets"] }

/-- `analyzeStructure(repo)`: framework default or the react fallback. -/
def analyzeStructure (repo : Repo) : ProjectStructure :=
  let framework := detectFramework repo
  if framework = "nextjs" then nextjsStructure
  else if framework = "remix" then remixStructure
  else if framework = "react" then reactStructure
  else reactStructure

/-- The feature keyword table of `identifyFeatures`, in source order. -/
def featurePatterns : List (String × List String) :=
  [ ("User Authentication", ["auth", "login", "jwt", "oauth"])
  , ("Database Integration", ["database", "orm", "prisma", "mongodb", "postgresql"])
  , ("Payment Processing", ["payment", "stripe", "billing", "checkout"])
  , ("File Upload", ["upload", "storage", "aws", "s3", "cloudinary"])
  , ("Real-time Features", ["websocket", "realtime", "socket.io", "sse"])
  , ("API Integration", ["api", "rest", "graphql", "fetch"])
  , ("UI Components", ["components", "ui", "design-system", "tailwind"])
  , ("Charts & Analytics", ["charts", "analytics", "visualization", "d3"])
  , ("Search Functionality", ["search", "elasticsearch", "algolia", "fuse"])
  , ("Email System", ["email", "smtp", "sendgrid", "mailgun"]) ]

/-- `identifyFeatures(repo)`. The template literal interpolates a null
description as the text `null`. -/
def identifyFeatures (repo : Repo) : List String :=
  let descText :=
    match repo.description with
    | none => "null"
    | some d => d
  let allText :=
    jsToLower (repo.name ++ " " ++ descText ++ " " ++ String.intercalate " " repo.topics)
  (featurePatterns.filter (fun p =>
    p.2.any (fun keyword => jsIncludes allText keyword))).map (fun p => p.1)

/-- `analyzeRepository(repo)`: the per-repository metadata analysis.
`codeQuality` copies the input quality score, defaulting to 0. -/
def analyzeRepository (repo : Repo) : RepositoryAnalysis :=
  { repository := repo
    framework := detectFramework repo
    components := extractComponents repo
    dependencies := extractDependencies repo
    structure' := analyzeStructure repo
    features := identifyFeatures repo
    codeQuality := repo.qualityScore.getD 0 }

/-- Lexicographic less-or-equal on character lists comparing code
points (the ordering JavaScript uses for its default sort). -/
def charLeB : List Char → List Char → Bool
  | [], _ => true
  | _ :: _, [] => false
  | a :: as, b :: bs =>
      if a.toNat = b.toNat then charLeB as bs else decide (a.toNat < b.toNat)

/-- Lexicographic less-or-equal on strings. -/
def strLe (a b : String) : Prop := charLeB a.data b.data = true

instance : DecidableRel strLe := fun a b =>
  instDecidableEqBool (charLeB a.data b.data) true

theorem charLeB_total : ∀ a b : List Char,
    charLeB a b = true ∨ charLeB b a = true := by
  intro a
  induction a with
  | nil => intro b; left; rfl
  | cons x xs ih =>
      intro b
      cases b with
      | nil => right; rfl
      | cons y ys =>
          by_cases hxy : x.toNat = y.toNat
          · rcases ih ys with h | h
            · left; simpa [charLeB, hxy] using h
            · right; simpa [charLeB, hxy.symm] using h
          · rcases Nat.lt_or_ge x.toNat y.toNat with hlt | hge
            · left; simp [charLeB, hxy, hlt]
            · right
              have hyx : y.toNat ≠ x.toNat := fun h => hxy h.symm
              have : y.toNat < x.toNat := lt_of_le_of_ne hge hyx
              simp [charLeB, hyx, this]

theorem charLeB_trans : ∀ a b c : List Char,
    charLeB a b = true → charLeB b c = true → charLeB a c = true := by
  intro a
  induction a with
  | nil => intro b c _ _; rfl
  | cons x xs ih =>
      intro b c hab hbc
      cases b with
      | nil => simp [charLeB] at hab
      | cons y ys =>
          cases c with
          | nil => simp [charLeB] at hbc
          | cons z zs =>
              by_cases hxy : x.toNat = y.toNat <;>
                by_cases hyz : y.toNat = z.toNat
              · have hxz : x.toNat = z.toNat := hxy.trans hyz
                simp only [charLeB, if_pos hxy] at hab
                simp only [charLeB, if_pos hyz] at hbc
                simp only [charLeB, if_pos hxz]
                exact ih ys zs hab hbc
              · have hxz : x.toNat ≠ z.toNat := fun h => hyz (hxy ▸ h)
                simp only [charLeB, if_neg hyz, decide_eq_true_eq] at hbc
                simp only [charLeB, if_neg hxz, decide_eq_true_eq]
                omega
              · have hxz : x.toNat ≠ z.toNat := fun h => hxy (h.trans hyz.symm)
                simp only [charLeB, if_neg hxy, decide_eq_true_eq] at hab
                simp only [charLeB, if_neg hxz, decide_eq_true_eq]
                omega
              · simp only [charLeB, if_neg hxy, decide_eq_true_eq] at hab
                simp only [charLeB, if_neg hyz, decide_eq_true_eq] at hbc
                by_cases hxz : x.toNat = z.toNat
                · omega
                · simp only [charLeB, if_neg hxz, decide_eq_true_eq]
                  omega

theorem char_toNat_inj {a b : Char} (h : a.toNat = b.toNat) : a = b :=
  Char.ext (UInt32.toNat.inj h)

theorem charLeB_antisymm : ∀ a b : List Char,
    charLeB a b = true → charLeB b a = true → a = b := by
  intro a
  induction a with
  | nil =>
      intro b _ hba
      cases b with
      | nil => rfl
      | cons y ys => simp [charLeB] at hba
  | cons x xs ih =>
      intro b hab hba
      cases b with
      | nil => simp [charLeB] at hab
      | cons y ys =>
          by_cases hxy : x.toNat = y.toNat
          · have hx : x = y := char_toNat_inj hxy
            subst hx
            simp only [charLeB, if_pos rfl] at hab hba
            rw [ih ys hab hba]
          · have hyx : y.toNat ≠ x.toNat := fun h => hxy h.symm
            simp only [charLeB, if_neg hxy, decide_eq_true_eq] at hab
            simp only [charLeB, if_neg hyx, decide_eq_true_eq] at hba
            omega

theorem strLe_antisymm {a b : String} (hab : strLe a b) (hba : strLe b a) :
    a = b := by
  cases a with
  | mk da =>
      cases b with
      | mk db =>
          exact congrArg String.mk (charLeB_antisymm da db hab hba)

/-- The comparator of JavaScript `Array.prototype.sort()` with no
arguments: decimal string forms compared lexicographically. -/
def numStrLe (a b : ℕ) : Prop := strLe (toString a) (toString b)

instance : DecidableRel numStrLe := fun a b =>
  instDecidableEqBool (charLeB (toString a).data (toString b).data) true

instance : IsTotal ℕ numStrLe := ⟨fun a b => charLeB_total _ _⟩

instance : IsTrans ℕ numStrLe := ⟨fun _ _ _ h1 h2 => charLeB_trans _ _ _ h1 h2⟩

/-- `request.repositories.map(r => r.id).sort()`: a stable sort under the
default (string) comparator. -/
def jsSortedIds (ids : List ℕ) : List ℕ := List.insertionSort numStrLe ids

/-- The repository component of a combination id: sorted ids joined with
`-`, truncated to 20 characters. -/
def repoIdsComponent (request : CombinationRequest) : String :=
  (String.intercalate "-"
    ((jsSortedIds (request.repositories.map (fun r => r.id))).map toString)).take 20

/-- `generateCombinationId(request)`; `now` is the `Date.now()` instant. -/
def generateCombinationId (now : ℕ) (request : CombinationRequest) : String :=
  "combo-" ++ toString now ++ "-" ++ repoIdsComponent request

/-- One `reduce` step of the framework frequency count: an insertion-
ordered association object. -/
def bumpCount (acc : List (String × ℕ)) (fw : String) : List (String × ℕ) :=
  if acc.any (fun p => p.1 == fw) then
    acc.map (fun p => if p.1 == fw then (p.1, p.2 + 1) else p)
  else
    acc ++ [(fw, 1)]

/-- `findDominantFramework(frameworks)`: most frequent framework, ties
broken by first appearance (stable sort over insertion order), defaulting
to `react` on an empty input. -/
def findDominantFramework (frameworks : List String) : String :=
  let counts := frameworks.foldl bumpCount []
  let sorted := List.insertionSort (fun p q : String × ℕ => q.2 ≤ p.2) counts
  ((sorted.head?).map (fun p => p.1)).getD "react"

/-- `determineMergeStrategy(analyses, targetFramework)`. -/
def determineMergeStrategy (analyses : List RepositoryAnalysis)
    (targetFramework : Option String) : MergeStrategy :=
  let frameworks := analyses.map (fun a => a.framework)
  let dominantFramework :=
    match targetFramework with
    | some t => t
    | none => findDominantFramework frameworks
  { type := "intelligent"
    targetFramework := dominantFramework
    conflictResolution := "smart-merge"
    componentMerging := "selective"
    dependencyStrategy := "unified" }

/-- `generateProjectStructure(analyses, strategy)`: the first analysis'
structure, or a fixed default. -/
def generateProjectStructure (analyses : List RepositoryAnalysis)
    (strategy : MergeStrategy) : ProjectStructure :=
  match analyses.head? with
  | some a => a.structure'
  | none =>
      { folders := ["src", "components", "lib", "public"]
        entryPoints := ["src/App.tsx"]
        configFiles := ["package.json"]
        assetFolders := ["public"] }

/-- `generateFiles` (placeholder: none). -/
def generateFiles (analyses : List RepositoryAnalysis)
    (structure' : ProjectStructure) (strategy : MergeStrategy) : List GeneratedFile :=
  []

/-- `resolveDependencies(analyses)`: union of all dependency lists,
deduplicated. -/
def resolveDependencies (analyses : List RepositoryAnalysis) : List String :=
  setDedup (analyses.foldr (fun a acc => a.dependencies ++ acc) [])

/-- The generic npm script set. -/
def baseScripts : List (String × String) :=
  [ ("dev", "npm run dev")
  , ("build", "npm run build")
  , ("start", "npm start")
  , ("lint", "eslint . --ext .ts,.tsx")
  , ("type-check", "tsc --noEmit") ]

/-- `generateScripts(framework, structure)`: framework-specific dev/build/
start commands over the base set (spread keeps base key order). -/
def generateScripts (framework : Option String) : List (String × String) :=
  match framework with
  | some "nextjs" =>
      [ ("dev", "next dev")
      , ("build", "next build")
      , ("start", "next start")
      , ("lint", "eslint . --ext .ts,.tsx")
      , ("type-check", "tsc --noEmit") ]
  | some "remix" =>
      [ ("dev", "remix dev")
      , ("build", "remix build")
      , ("start", "remix-serve build")
      , ("lint", "eslint . --ext .ts,.tsx")
      , ("type-check", "tsc --noEmit") ]
  | _ => baseScripts

/-- `generateDeploymentConfig(framework)`. -/
def generateDeploymentConfig (framework : Option String) : DeploymentConfig :=
  { platform := "vercel"
    envVars := ["GITHUB_TOKEN", "DATABASE_URL"]
    buildCommand := "npm run build"
    outputDirectory := if framework = some "nextjs" then ".next" else "build" }

/-- The per-folder descriptions of `getFolderDescription`. -/
def getFolderDescription (folder : String) : String :=
  if folder = "app" then "Main application code (Remix/Next.js)"
  else if folder = "src" then "Source code directory"
  else if folder = "components" then "Reusable UI components"
  else if folder = "lib" then "Utility functions and services"
  else if folder = "public" then "Static assets"
  else if folder = "styles" then "CSS and styling files"
  else if folder = "routes" then "Route components"
  else if folder = "hooks" then "Custom React hooks"
  else if folder = "utils" then "Utility functions"
  else if folder = "types" then "TypeScript type definitions"
  else "Project files"

/-- `generateInstructions(request, structure)`. -/
def generateInstructions (request : CombinationRequest)
    (structure' : ProjectStructure) : List String :=
  [ "🚀 **Setup Instructions**"
  , ""
  , "1. Clone or download the generated project"
  , "2. Install dependencies: `npm install`"
  , "3. Copy `.env.example` to `.env` and configure your environment variables"
  , "4. Start development server: `npm run dev`"
  , ""
  , "📁 **Project Structure**" ]
  ++ structure'.folders.map (fun folder =>
      "- /" ++ folder ++ "/ - " ++ getFolderDescription folder)
  ++ [ ""
  , "🔧 **Configuration**"
  , "- Update environment variables in `.env`"
  , "- Customize configuration files as needed"
  , "- Review and modify generated components"
  , ""
  , "🚀 **Deployment**"
  , "- Deploy to Vercel: `vercel --prod`"
  , "- Or build for production: `npm run build`"
  , ""
  , "📚 **Source Repositories**" ]
  ++ request.repositories.map (fun repo =>
      "- [" ++ repo.full_name ++ "](" ++ repo.html_url ++ ") - "
        ++ (match repo.description with | none => "null" | some d => d))

/-- `combineProjects(request)`; `now` is the `Date.now()` instant used by
`generateCombinationId`. -/
def combineProjects (now : ℕ) (request : CombinationRequest) : CombinationResult :=
  let combinationId := generateCombinationId now request
  let analyses := request.repositories.map analyzeRepository
  let mergeStrategy := determineMergeStrategy analyses request.targetFramework
  let structure' := generateProjectStructure analyses mergeStrategy
  let files := generateFiles analyses structure' mergeStrategy
  let dependencies := resolveDependencies analyses
  let scripts := generateScripts request.targetFramework
  let deploymentConfig := generateDeploymentConfig request.targetFramework
  let instructions := generateInstructions request structure'
  { id := combinationId
    name := request.projectName
    description :=
      (match request.description with
       | some d => d
       | none =>
          "Combined project from " ++ toString request.repositories.length
            ++ " repositories")
    structure' := structure'
    files := files
    dependencies := dependencies
    scripts := scripts
    instructions := instructions
    deploymentConfig := deploymentConfig }

/-! ## Specification-side definitions -/

/-- Modelled from the spec's words (section 4.4): the standard quality
score formula `round(min(0.3*min(log10(stars+1)*10, 30)
+ 0.2*min(log10(forks+1)*10, 20) + 0.2*max(20 - daysSinceUpdate/30, 0)
+ 0.2*((descriptionLength>50 ? 15 : 0) + (hasTopics ? 5 : 0))
+ 0.1*max(10 - (openIssues/(stars+1))*50, 0), 100))`. -/
noncomputable def specStandardScore (now : ℤ) (repo : Repo) : ℤ :=
  let descriptionLength : ℕ := (repo.description.map String.length).getD 0
  let daysSinceUpdate : ℝ := ((now : ℝ) - (repo.updated_at_ms : ℝ)) / (1000 * 60 * 60 * 24)
  round (min
    (0.3 * min (Real.logb 10 ((repo.stargazers_count : ℝ) + 1) * 10) 30
      + 0.2 * min (Real.logb 10 ((repo.forks_count : ℝ) + 1) * 10) 20
      + 0.2 * max (20 - daysSinceUpdate / 30) 0
      + 0.2 * ((if 50 < descriptionLength then (15 : ℝ) else 0)
          + (if 0 < repo.topics.length then (5 : ℝ) else 0))
      + 0.1 * max (10 - ((repo.open_issues_count : ℝ)
          / ((repo.stargazers_count : ℝ) + 1)) * 50) 0)
    100)

theorem round_mem_Icc {x : ℝ} (h0 : 0 ≤ x) (h100 : x ≤ 100) :
    0 ≤ round x ∧ round x ≤ 100 := by
  rw [round_eq]
  refine ⟨Int.le_floor.mpr (by push_cast; linarith), ?_⟩
  have h := Int.floor_lt.mpr (show x + 1 / 2 < ((101 : ℤ) : ℝ) by push_cast; linarith)
  omega

theorem ite_bool_nonneg (b : Bool) (x y : ℝ) (hx : 0 ≤ x) (hy : 0 ≤ y) :
    0 ≤ if b then x else y := by
  cases b <;> simpa

theorem weighted_sum_nonneg {a b c d e : ℝ} (ha : 0 ≤ a) (hb : 0 ≤ b)
    (hc : 0 ≤ c) (hd : 0 ≤ d) (he : 0 ≤ e) :
    0 ≤ a * 0.3 + b * 0.2 + c * 0.2 + d * 0.2 + e * 0.1 := by
  nlinarith

theorem one_le_nat_cast_add_one (n : ℕ) : (1 : ℝ) ≤ (n : ℝ) + 1 := by
  have := Nat.cast_nonneg (α := ℝ) n
  linarith

/-- C1: the standard quality score equals the spec formula
`round(min(0.3*min(log10(stars+1)*10,30) + 0.2*min(log10(forks+1)*10,20)
+ 0.2*max(20-daysSinceUpdate/30,0) + 0.2*((descLen>50?15:0)+(hasTopics?5:0))
+ 0.1*max(10-(openIssues/(stars+1))*50,0), 100))`, is an integer in
`[0,100]`, and its only denominator `stars+1` is never zero. -/
theorem quality_score_standard_formula (now : ℤ) (repo : Repo) :
    calculateQualityScore now repo = specStandardScore now repo ∧
    0 ≤ calculateQualityScore now repo ∧
    calculateQualityScore now repo ≤ 100 ∧
    ((repo.stargazers_count : ℝ) + 1) ≠ 0 := by
  have hden : ((repo.stargazers_count : ℝ) + 1) ≠ 0 := by positivity
  have heq : calculateQualityScore now repo = specStandardScore now repo := by
    unfold calculateQualityScore specStandardScore
    cases hd : repo.description with
    | none =>
        simp only [hd, Option.map_none', Option.getD_none, decide_eq_true_eq]
        norm_num
        congr 1
        congr 1
        ring
    | some d =>
        simp only [hd, Option.map_some', Option.getD_some, decide_eq_true_eq]
        congr 1
        congr 1
        ring
  have hbounds : 0 ≤ calculateQualityScore now repo ∧
      calculateQualityScore now repo ≤ 100 := by
    unfold calculateQualityScore
    refine round_mem_Icc ?_ (min_le_right _ _)
    refine le_min ?_ (by norm_num)
    refine weighted_sum_nonneg ?_ ?_ ?_ ?_ ?_
    · exact le_min
        (mul_nonneg
          (Real.logb_nonneg (by norm_num) (one_le_nat_cast_add_one _))
          (by norm_num))
        (by norm_num)
    · exact le_min
        (mul_nonneg
          (Real.logb_nonneg (by norm_num) (one_le_nat_cast_add_one _))
          (by norm_num))
        (by norm_num)
    · exact le_max_right _ _
    · exact add_nonneg
        (ite_bool_nonneg _ _ _ (by norm_num) le_rfl)
        (ite_bool_nonneg _ _ _ (by norm_num) le_rfl)
    · exact le_max_right _ _
  exact ⟨heq, hbounds.1, hbounds.2, hden⟩

/-! ## C2: query-builder determinism -/

/-- An `EnhancedSearchFilters` value with every field absent. -/
def emptyFilters : EnhancedSearchFilters :=
  { language := none, minStars := none, maxStars := none, topics := none
    hasIssues := none, hasWiki := none, hasPages := none, archived := none
    fork := none, sortBy := none, order := none, vulnerabilities := none
    license := none, size := none, activity := none, codeQuality := none
    teamSize := none }

/-- Filters requesting only the `active` activity bucket. -/
def activeOnlyFilters : EnhancedSearchFilters :=
  { language := none, minStars := none, maxStars := none, topics := none
    hasIssues := none, hasWiki := none, hasPages := none, archived := none
    fork := none, sortBy := none, order := none, vulnerabilities := none
    license := none, size := none, activity := some .active, codeQuality := none
    teamSize := none }

/-- C2 (amended): the standard builder reads no clock at all (its
embedding `buildSmartQuery` takes no time argument), and the enhanced
builder is a pure function of query and filters whenever the
activity-bucket filter is unset; with the activity bucket set its output
depends on the current time. -/
theorem enhanced_query_time_invariant_without_activity
    (t1 t2 : ℤ) (q : String) (f : EnhancedSearchFilters)
    (h : f.activity = none) :
    buildEnhancedQuery t1 q f = buildEnhancedQuery t2 q f := by
  unfold buildEnhancedQuery
  rw [h]

/-- C2 witness: the amended theorem at a concrete filter set. -/
theorem enhanced_query_time_invariant_without_activity_witness :
    emptyFilters.activity = none ∧
    buildEnhancedQuery 0 "react" emptyFilters
      = buildEnhancedQuery 86400000 "react" emptyFilters :=
  ⟨rfl, enhanced_query_time_invariant_without_activity 0 86400000 "react"
    emptyFilters rfl⟩

/-- C2 counterexample: with the activity bucket set, the same query and
filters serialize differently at two wall-clock instants one day apart
(the `pushed:>` threshold moves with the clock). -/
theorem enhanced_query_depends_on_time :
    buildEnhancedQuery 0 "react" activeOnlyFilters
      ≠ buildEnhancedQuery 86400000 "react" activeOnlyFilters := by
  decide

/-! ## C3: hasMore and page size -/

/-- C3 (amended): the standard search sets `hasMore` iff the external
call returned exactly 30 items, and `nextPage = page + 1` exactly when
`hasMore`; the enhanced search derives `hasMore` and `nextPage` from the
length of the *post-filtered* list (page size 50), so post-filtering can
clear `hasMore` even when the external call returned a full page. -/
theorem hasMore_iff_full_page (now : ℤ) (items : List Repo)
    (totalCount : ℕ) (page : ℕ)
    (langOf : String → List (String × ℕ)) (contribOf : String → List String)
    (f : EnhancedSearchFilters) :
    ((searchRepositories now items totalCount page).hasMore = true
      ↔ items.length = 30)
    ∧ ((searchRepositories now items totalCount page).nextPage = some (page + 1)
      ↔ (searchRepositories now items totalCount page).hasMore = true)
    ∧ ((enhancedSearchCore now langOf contribOf items totalCount f page).hasMore = true
      ↔ (applyAdvancedFilters (items.map (enhancedEnrichOne now langOf contribOf)) f).length
          = 50)
    ∧ ((enhancedSearchCore now langOf contribOf items totalCount f page).nextPage
          = some (page + 1)
      ↔ (enhancedSearchCore now langOf contribOf items totalCount f page).hasMore
          = true) := by
  refine ⟨?_, ?_, ?_, ?_⟩
  · simp [searchRepositories]
  · by_cases h : items.length = 30 <;> simp [searchRepositories, h]
  · simp [enhancedSearchCore]
  · by_cases h :
      (applyAdvancedFilters (items.map (enhancedEnrichOne now langOf contribOf)) f).length
        = 50 <;>
      simp [enhancedSearchCore, h]

/-- A bare repository: zero counts, no description, no topics, last
updated 140 days before the instant `staleNow`. -/
def bareRepo : Repo :=
  { id := 7, name := "thing", full_name := "o/thing", description := none
    html_url := "https://example.test/o/thing", language := none
    stargazers_count := 0, forks_count := 0, open_issues_count := 0
    updated_at_ms := 0, created_at := "", topics := [], owner_login := "o"
    owner_avatar_url := "", qualityScore := none, pushed_at := ""
    license_name := none }

/-- An instant 140 days after `bareRepo`'s last update. -/
def staleNow : ℤ := 140 * 86400000

/-- Filters requesting only excellent code quality. -/
def excellentOnlyFilters : EnhancedSearchFilters :=
  { language := none, minStars := none, maxStars := none, topics := none
    hasIssues := none, hasWiki := none, hasPages := none, archived := none
    fork := none, sortBy := none, order := none, vulnerabilities := none
    license := none, size := none, activity := none
    codeQuality := some .excellent, teamSize := none }

theorem bareRepo_enhanced_score :
    calculateEnhancedQualityScore staleNow bareRepo [] [] = 10 := by
  unfold calculateEnhancedQualityScore bareRepo staleNow
  norm_num [Real.logb_one]

theorem filter_replicate_of_false {α : Type} (p : α → Bool) (x : α)
    (h : p x = false) : ∀ n, (List.replicate n x).filter p = [] := by
  intro n
  induction n with
  | zero => simp
  | succ k ih => simp [List.replicate_succ, List.filter_cons, h, ih]

/-- C3 counterexample: the external call returns a full page of 50 items,
but the quality post-filter removes them all, so the enhanced search
reports `hasMore = false` (the claim as stated requires `true`). -/
theorem enhanced_hasMore_cleared_by_post_filter :
    (List.replicate 50 bareRepo).length = 50 ∧
    (enhancedSearchCore staleNow (fun _ => []) (fun _ => [])
      (List.replicate 50 bareRepo) 1000 excellentOnlyFilters 1).hasMore = false ∧
    (enhancedSearchCore staleNow (fun _ => []) (fun _ => [])
      (List.replicate 50 bareRepo) 1000 excellentOnlyFilters 1).nextPage = none := by
  have hpred :
      (fun repo : EnhancedRepo =>
        match excellentOnlyFilters.codeQuality with
        | some q => !decide (repo.qualityScore.getD 0 < qualityThreshold q)
        | none => true)
        (enhancedEnrichOne staleNow (fun _ => []) (fun _ => []) bareRepo) = false := by
    simp [excellentOnlyFilters, enhancedEnrichOne, bareRepo_enhanced_score,
      qualityThreshold]
  have hfilter :
      applyAdvancedFilters
        ((List.replicate 50 bareRepo).map
          (enhancedEnrichOne staleNow (fun _ => []) (fun _ => [])))
        excellentOnlyFilters = [] := by
    rw [List.map_replicate]
    unfold applyAdvancedFilters
    exact filter_replicate_of_false
      (fun repo : EnhancedRepo =>
        match excellentOnlyFilters.codeQuality with
        | some q => !decide (repo.qualityScore.getD 0 < qualityThreshold q)
        | none => true)
      (enhancedEnrichOne staleNow (fun _ => []) (fun _ => []) bareRepo) hpred 50
  refine ⟨by simp, ?_, ?_⟩ <;>
  · simp only [enhancedSearchCore]
    rw [hfilter]
    simp

/-! ## C4: insufficient input -/

/-- C4: with fewer than two repositories, `analyzeProjectCompatibility`
returns score 100, no conflicts and a non-empty guidance suggestion
(total function, no error path), and `getCompatibilityScore` returns
100. -/
theorem insufficient_input_neutral (repos : List Repo)
    (h : repos.length < 2) :
    analyzeProjectCompatibility repos =
      ⟨100, [], ["Add more repositories to analyze compatibility"]⟩ ∧
    (analyzeProjectCompatibility repos).suggestions ≠ [] ∧
    getCompatibilityScore repos = 100 := by
  unfold analyzeProjectCompatibility getCompatibilityScore
  simp [h]

/-- C4 witness: the empty and singleton repository lists. -/
theorem insufficient_input_neutral_witness :
    (([] : List Repo).length < 2 ∧
      analyzeProjectCompatibility [] =
        ⟨100, [], ["Add more repositories to analyze compatibility"]⟩ ∧
      (analyzeProjectCompatibility []).suggestions ≠ [] ∧
      getCompatibilityScore [] = 100) ∧
    ([bareRepo].length < 2 ∧ getCompatibilityScore [bareRepo] = 100) :=
  ⟨⟨by decide, insufficient_input_neutral [] (by decide)⟩,
   ⟨by decide, (insufficient_input_neutral [bareRepo] (by decide)).2.2⟩⟩

/-! ## C5: combining all-nextjs repositories -/

theorem foldl_bumpCount_all_nextjs :
    ∀ (fs : List String) (k : ℕ), (∀ x ∈ fs, x = "nextjs") →
      fs.foldl bumpCount [("nextjs", k)] = [("nextjs", k + fs.length)] := by
  intro fs
  induction fs with
  | nil => intro k _; simp
  | cons a t ih =>
      intro k h
      have ha : a = "nextjs" := h a (List.mem_cons_self a t)
      subst ha
      have hstep : bumpCount [("nextjs", k)] "nextjs" = [("nextjs", k + 1)] := by
        simp [bumpCount]
      rw [List.foldl_cons, hstep,
        ih (k + 1) (fun x hx => h x (List.mem_cons_of_mem _ hx))]
      simp [List.length_cons]
      omega

theorem findDominantFramework_all_nextjs (fs : List String)
    (hne : fs ≠ []) (h : ∀ x ∈ fs, x = "nextjs") :
    findDominantFramework fs = "nextjs" := by
  cases fs with
  | nil => exact absurd rfl hne
  | cons a t =>
      have ha : a = "nextjs" := h a (List.mem_cons_self a t)
      subst ha
      unfold findDominantFramework
      have hcounts : ("nextjs" :: t).foldl bumpCount [] = [("nextjs", 1 + t.length)] := by
        have hfirst : bumpCount [] "nextjs" = [("nextjs", 1)] := by simp [bumpCount]
        rw [List.foldl_cons, hfirst,
          foldl_bumpCount_all_nextjs t 1 (fun x hx => h x (List.mem_cons_of_mem _ hx))]
      rw [hcounts]
      simp [List.insertionSort, List.orderedInsert]

theorem mem_extractDependencies_nextjs (r : Repo)
    (h : detectFramework r = "nextjs") (d : String)
    (hd : d ∈ ["next", "react", "react-dom"]) : d ∈ extractDependencies r := by
  unfold extractDependencies
  rw [mem_setDedup, h]
  exact List.mem_append_left _ (by simpa [frameworkDeps] using hd)

theorem mem_foldr_append_deps (analyses : List RepositoryAnalysis)
    (a : RepositoryAnalysis) (ha : a ∈ analyses) (d : String)
    (hd : d ∈ a.dependencies) :
    d ∈ analyses.foldr (fun a acc => a.dependencies ++ acc) [] := by
  induction analyses with
  | nil => cases ha
  | cons b t ih =>
      rcases List.mem_cons.mp ha with rfl | hb
      · exact List.mem_append_left _ hd
      · exact List.mem_append_right _ (ih hb)

theorem mem_resolveDependencies (analyses : List RepositoryAnalysis)
    (a : RepositoryAnalysis) (ha : a ∈ analyses) (d : String)
    (hd : d ∈ a.dependencies) : d ∈ resolveDependencies analyses := by
  unfold resolveDependencies
  rw [mem_setDedup]
  exact mem_foldr_append_deps analyses a ha d hd

/-- C5: a combination request with no caller-specified target framework
whose repositories (at least two) are all detected as `nextjs` yields the
merge strategy target framework `nextjs`, and the combination's
dependency list contains `next`, `react` and `react-dom` with no
duplicate entries. -/
theorem combine_all_nextjs (now : ℕ) (req : CombinationRequest)
    (hTF : req.targetFramework = none)
    (hLen : 2 ≤ req.repositories.length)
    (hFw : ∀ r ∈ req.repositories, detectFramework r = "nextjs") :
    (determineMergeStrategy (req.repositories.map analyzeRepository)
        req.targetFramework).targetFramework = "nextjs"
    ∧ "next" ∈ (combineProjects now req).dependencies
    ∧ "react" ∈ (combineProjects now req).dependencies
    ∧ "react-dom" ∈ (combineProjects now req).dependencies
    ∧ (combineProjects now req).dependencies.Nodup := by
  have hne : req.repositories ≠ [] := by
    intro hnil
    rw [hnil] at hLen
    simp at hLen
  have hdeps : (combineProjects now req).dependencies
      = resolveDependencies (req.repositories.map analyzeRepository) := rfl
  have hmemdeps : ∀ d ∈ ["next", "react", "react-dom"],
      d ∈ (combineProjects now req).dependencies := by
    intro d hd
    rw [hdeps]
    obtain ⟨r0, rest, hcons⟩ : ∃ r0 rest, req.repositories = r0 :: rest := by
      cases hrep : req.repositories with
      | nil => exact absurd hrep hne
      | cons x xs => exact ⟨x, xs, rfl⟩
    have hr0 : r0 ∈ req.repositories := by rw [hcons]; exact List.mem_cons_self _ _
    refine mem_resolveDependencies _ (analyzeRepository r0)
      (List.mem_map_of_mem analyzeRepository hr0) d ?_
    exact mem_extractDependencies_nextjs r0 (hFw r0 hr0) d hd
  refine ⟨?_, ?_, ?_, ?_, ?_⟩
  · unfold determineMergeStrategy
    rw [hTF]
    simp only []
    apply findDominantFramework_all_nextjs
    · simpa using hne
    · intro x hx
      obtain ⟨a, ha, rfl⟩ := List.mem_map.mp hx
      obtain ⟨r, hr, rfl⟩ := List.mem_map.mp ha
      exact hFw r hr
  · exact hmemdeps "next" (by simp)
  · exact hmemdeps "react" (by simp)
  · exact hmemdeps "react-dom" (by simp)
  · rw [hdeps]; exact setDedup_nodup _

/-- Two concrete repositories detected as `nextjs`. -/
def nextRepoA : Repo :=
  { id := 1, name := "nextjs-starter", full_name := "a/nextjs-starter"
    description := none, html_url := "", language := none
    stargazers_count := 0, forks_count := 0, open_issues_count := 0
    updated_at_ms := 0, created_at := "", topics := [], owner_login := "a"
    owner_avatar_url := "", qualityScore := none, pushed_at := ""
    license_name := none }

/-- A second concrete repository detected as `nextjs`. -/
def nextRepoB : Repo :=
  { nextRepoA with
    id := 2
    name := "nextjs-blog"
    full_name := "b/nextjs-blog"
    owner_login := "b" }

/-- A concrete combination request over the two `nextjs` repositories. -/
def nextReq : CombinationRequest :=
  { repositories := [nextRepoA, nextRepoB], projectName := "combined"
    description := none, targetFramework := none, features := [] }

/-- C5 witness: the theorem at the concrete two-repository request. -/
theorem combine_all_nextjs_witness :
    (nextReq.targetFramework = none ∧ 2 ≤ nextReq.repositories.length ∧
      ∀ r ∈ nextReq.repositories, detectFramework r = "nextjs") ∧
    ((determineMergeStrategy (nextReq.repositories.map analyzeRepository)
        nextReq.targetFramework).targetFramework = "nextjs"
      ∧ "next" ∈ (combineProjects 0 nextReq).dependencies
      ∧ "react" ∈ (combineProjects 0 nextReq).dependencies
      ∧ "react-dom" ∈ (combineProjects 0 nextReq).dependencies
      ∧ (combineProjects 0 nextReq).dependencies.Nodup) :=
  ⟨⟨rfl, by decide, by decide⟩,
   combine_all_nextjs 0 nextReq rfl (by decide) (by decide)⟩

/-! ## C6: cache TTL of the enhanced search -/

/-- C6: one `enhancedSearch` run returns the cached value, with no
rate-limit wait and no external call, exactly when the key built from
query, serialized filters and page holds an entry younger than 15
minutes; an entry aged 15 minutes or more (or no entry) leads to the
external call, and the fresh result overwrites the key. -/
theorem enhancedSearch_cache_ttl (now now2 : ℤ)
    (langOf : String → List (String × ℕ)) (contribOf : String → List String)
    (cache : List (String × CacheEntry)) (query : String)
    (filters : EnhancedSearchFilters) (page : ℕ)
    (items : List Repo) (totalCount : ℕ) :
    (∀ e, mapGet cache (cacheKey query filters page) = some e →
      now - e.timestamp < cacheTimeout →
      enhancedSearchRun now now2 langOf contribOf cache query filters page
        items totalCount = (e.data, cache, false))
    ∧ (∀ e, mapGet cache (cacheKey query filters page) = some e →
      cacheTimeout ≤ now - e.timestamp →
      (enhancedSearchRun now now2 langOf contribOf cache query filters page
        items totalCount).2.2 = true
      ∧ mapGet (enhancedSearchRun now now2 langOf contribOf cache query filters
          page items totalCount).2.1 (cacheKey query filters page)
        = some ⟨enhancedSearchCore now langOf contribOf items totalCount
            filters page, now2⟩)
    ∧ (mapGet cache (cacheKey query filters page) = none →
      (enhancedSearchRun now now2 langOf contribOf cache query filters page
        items totalCount).2.2 = true
      ∧ mapGet (enhancedSearchRun now now2 langOf contribOf cache query filters
          page items totalCount).2.1 (cacheKey query filters page)
        = some ⟨enhancedSearchCore now langOf contribOf items totalCount
            filters page, now2⟩) := by
  refine ⟨?_, ?_, ?_⟩
  · intro e he hfresh
    unfold enhancedSearchRun
    simp only [he]
    rw [if_pos hfresh]
  · intro e he hstale
    unfold enhancedSearchRun
    simp only [he]
    rw [if_neg (not_lt.mpr hstale)]
    exact ⟨by trivial, mapGet_mapSet_self _ _ _⟩
  · intro he
    unfold enhancedSearchRun
    simp only [he]
    exact ⟨by trivial, mapGet_mapSet_self _ _ _⟩

/-- A concrete cached search result. -/
def cachedResult : EnhSearchResult :=
  { repositories := [], totalCount := 3, hasMore := false, nextPage := none }

/-- A concrete cache holding `cachedResult` for the key of query `q`,
empty filters, page 1, inserted at instant 0. -/
def cacheWithEntry : List (String × CacheEntry) :=
  [(cacheKey "q" emptyFilters 1, ⟨cachedResult, 0⟩)]

/-- C6 witness: a fresh hit at `now = 1000` returns the cached data
without the external call. -/
theorem enhancedSearch_cache_ttl_witness :
    mapGet cacheWithEntry (cacheKey "q" emptyFilters 1)
      = some ⟨cachedResult, 0⟩ ∧
    (1000 : ℤ) - 0 < cacheTimeout ∧
    enhancedSearchRun 1000 2000 (fun _ => []) (fun _ => []) cacheWithEntry
      "q" emptyFilters 1 [] 0 = (cachedResult, cacheWithEntry, false) :=
  ⟨by decide, by decide,
   (enhancedSearch_cache_ttl 1000 2000 (fun _ => []) (fun _ => [])
      cacheWithEntry "q" emptyFilters 1 [] 0).1
     ⟨cachedResult, 0⟩ (by decide) (by decide)⟩

/-! ## C7: combination determinism and id structure -/

/-- Modelled from the spec: "sorted repository ids joined" read as the
ids in numeric ascending order, joined with `-` (and truncated like the
engine's component). -/
def specNumericIdsComponent (request : CombinationRequest) : String :=
  (String.intercalate "-"
    ((List.insertionSort (fun a b : ℕ => a ≤ b)
        (request.repositories.map (fun r => r.id))).map toString)).take 20

theorem jsSortedIds_map_toString_perm_eq {l1 l2 : List ℕ}
    (h : l1.Perm l2) :
    (jsSortedIds l1).map toString = (jsSortedIds l2).map toString := by
  haveI : IsAntisymm String strLe := ⟨fun a b => strLe_antisymm⟩
  have hs : ∀ l : List ℕ, ((jsSortedIds l).map toString).Pairwise strLe := by
    intro l
    exact List.Pairwise.map toString (fun a b hab => hab)
      (List.sorted_insertionSort numStrLe l)
  have hp : ((jsSortedIds l1).map toString).Perm ((jsSortedIds l2).map toString) :=
    List.Perm.map toString
      (((List.perm_insertionSort numStrLe l1).trans h).trans
        (List.perm_insertionSort numStrLe l2).symm)
  exact List.eq_of_perm_of_sorted hp (hs l1) (hs l2)

/-- C7 (amended): with the timestamp fixed, `combineProjects` is fully
deterministic — the dependency list and script map do not depend on the
timestamp at all — and the id is `combo-<timestamp>-<component>` where
the component joins the repository ids sorted by the engine's order (the
default-sort order: decimal strings compared lexicographically) with `-`
and truncates to 20 characters, so it is invariant under any permutation
of the repositories. -/
theorem combineProjects_deterministic (t1 t2 : ℕ)
    (req req2 : CombinationRequest)
    (hperm : req2.repositories.Perm req.repositories) :
    (combineProjects t1 req).dependencies = (combineProjects t2 req).dependencies
    ∧ (combineProjects t1 req).scripts = (combineProjects t2 req).scripts
    ∧ (combineProjects t1 req).id
        = "combo-" ++ toString t1 ++ "-" ++ repoIdsComponent req
    ∧ repoIdsComponent req2 = repoIdsComponent req := by
  refine ⟨rfl, rfl, rfl, ?_⟩
  unfold repoIdsComponent
  rw [jsSortedIds_map_toString_perm_eq (List.Perm.map (fun r => r.id) hperm)]

/-- The two-repository request listed in the opposite order. -/
def nextReqSwapped : CombinationRequest :=
  { repositories := [nextRepoB, nextRepoA], projectName := "combined"
    description := none, targetFramework := none, features := [] }

/-- C7 witness: the amended theorem at the concrete request and its
permutation. -/
theorem combineProjects_deterministic_witness :
    nextReqSwapped.repositories.Perm nextReq.repositories ∧
    ((combineProjects 11 nextReq).dependencies
        = (combineProjects 22 nextReq).dependencies
      ∧ (combineProjects 11 nextReq).scripts = (combineProjects 22 nextReq).scripts
      ∧ (combineProjects 11 nextReq).id
          = "combo-" ++ toString 11 ++ "-" ++ repoIdsComponent nextReq
      ∧ repoIdsComponent nextReqSwapped = repoIdsComponent nextReq) :=
  ⟨by decide, combineProjects_deterministic 11 22 nextReq nextReqSwapped (by decide)⟩

/-- A repository with id 9. -/
def repoId9 : Repo :=
  { nextRepoA with id := 9, name := "alpha", full_name := "x/alpha" }

/-- A repository with id 10. -/
def repoId10 : Repo :=
  { nextRepoA with id := 10, name := "beta", full_name := "x/beta" }

/-- A request whose repository ids are 9 and 10. -/
def reqNineTen : CombinationRequest :=
  { repositories := [repoId9, repoId10], projectName := "p"
    description := none, targetFramework := none, features := [] }

/-- C7 counterexample: the id component is not the numerically sorted id
join — JavaScript's default sort compares decimal strings, so ids 9 and
10 produce `10-9`, not `9-10`. -/
theorem combination_id_not_numerically_sorted :
    repoIdsComponent reqNineTen = "10-9"
    ∧ specNumericIdsComponent reqNineTen = "9-10"
    ∧ generateCombinationId 0 reqNineTen
        ≠ "combo-" ++ toString 0 ++ "-" ++ specNumericIdsComponent reqNineTen := by
  refine ⟨by decide, by decide, by decide⟩

/-! ## C8: rate limiter spacing and quota decrement -/

theorem waitIfNeeded_step_spacing (s : RLState) (now tEnd : ℤ)
    (h : rlValidStep s now tEnd) :
    s.lastRequestTime + 100 ≤ (waitIfNeeded s now tEnd).lastRequestTime := by
  have hq : 0 ≤ rlQuotaWait s now := by
    unfold rlQuotaWait
    split
    · exact le_max_left 0 _
    · exact le_refl 0
  unfold rlValidStep rlRequiredWait rlSpacingWait at h
  unfold waitIfNeeded
  simp only []
  split at h <;> omega

theorem waitIfNeeded_decrement (s : RLState) (now tEnd : ℤ) :
    (waitIfNeeded s now tEnd).remaining
      = (if s.resetTime < now then 5000 else s.remaining) - 1 := by
  unfold waitIfNeeded rlReset
  split <;> simp

theorem rlTimestamps_lower_bound :
    ∀ (calls : List (ℤ × ℤ)) (s : RLState), rlValidTrace s calls →
      ∀ y ∈ rlTimestamps s calls, s.lastRequestTime + 100 ≤ y := by
  intro calls
  induction calls with
  | nil => intro s _ y hy; simp [rlTimestamps] at hy
  | cons c rest ih =>
      intro s hv y hy
      obtain ⟨now, tEnd⟩ := c
      obtain ⟨hstep, htrace⟩ := hv
      have hfirst : s.lastRequestTime + 100 ≤ tEnd := by
        have := waitIfNeeded_step_spacing s now tEnd hstep
        simpa [waitIfNeeded] using this
      rcases List.mem_cons.mp hy with rfl | hy'
      · exact hfirst
      · have := ih (waitIfNeeded s now tEnd) htrace y hy'
        have hlast : (waitIfNeeded s now tEnd).lastRequestTime = tEnd := rfl
        omega

/-- C8 (amended): in a sequential trace of completed `waitIfNeeded`
calls, any two recorded last-request timestamps are at least 100 ms
apart, and each completed call decrements `remaining` by exactly one
after resetting it to 5000 when the current time has passed
`resetTime`. (Overlapping calls are excluded: see the counterexample.) -/
theorem rateLimiter_sequential_spacing_and_decrement (s : RLState)
    (calls : List (ℤ × ℤ)) (h : rlValidTrace s calls) :
    (rlTimestamps s calls).Pairwise (fun a b => a + 100 ≤ b)
    ∧ ∀ now tEnd : ℤ,
        (waitIfNeeded s now tEnd).remaining
          = (if s.resetTime < now then 5000 else s.remaining) - 1 := by
  refine ⟨?_, fun now tEnd => waitIfNeeded_decrement s now tEnd⟩
  induction calls generalizing s with
  | nil => exact List.Pairwise.nil
  | cons c rest ih =>
      obtain ⟨now, tEnd⟩ := c
      obtain ⟨hstep, htrace⟩ := h
      refine List.Pairwise.cons ?_ (ih (waitIfNeeded s now tEnd) htrace)
      intro y hy
      have := rlTimestamps_lower_bound rest (waitIfNeeded s now tEnd) htrace y hy
      have hlast : (waitIfNeeded s now tEnd).lastRequestTime = tEnd := rfl
      omega

/-- C8 witness: a concrete valid two-call sequential trace from the
initial state. -/
theorem rateLimiter_sequential_spacing_and_decrement_witness :
    rlValidTrace rlInit [(5, 105), (205, 305)] ∧
    ((rlTimestamps rlInit [(5, 105), (205, 305)]).Pairwise
        (fun a b => a + 100 ≤ b)
      ∧ ∀ now tEnd : ℤ,
          (waitIfNeeded rlInit now tEnd).remaining
            = (if rlInit.resetTime < now then 5000 else rlInit.remaining) - 1) :=
  have hv : rlValidTrace rlInit [(5, 105), (205, 305)] := by
    refine ⟨?_, ?_, trivial⟩ <;>
    · simp only [rlValidStep, rlRequiredWait, rlQuotaWait, rlSpacingWait,
        rlReset, waitIfNeeded, rlInit]
      decide
  ⟨hv, rateLimiter_sequential_spacing_and_decrement rlInit
    [(5, 105), (205, 305)] hv⟩

/-- C8 counterexample: two overlapping calls both read the initial
shared state before either writes it back (the synchronous prefix of
each body runs before the other call's suspension resumes). Both waits
are honoured (`setTimeout` fires exactly on time), yet both calls record
the timestamp 100, so the two completed calls are 0 ms apart. -/
theorem rateLimiter_concurrent_spacing_violation :
    rlInterleavedValid rlInit 5 6 100 100
    ∧ (rlInterleavedTimestamps rlInit 5 6 100 100).1 = 100
    ∧ (rlInterleavedTimestamps rlInit 5 6 100 100).2 = 100
    ∧ ¬((rlInterleavedTimestamps rlInit 5 6 100 100).1 + 100
          ≤ (rlInterleavedTimestamps rlInit 5 6 100 100).2) := by
  refine ⟨⟨?_, ?_⟩, rfl, rfl, by decide⟩ <;>
  · simp only [rlValidStep, rlRequiredWait, rlQuotaWait, rlSpacingWait,
      rlReset, rlInit]
    decide

/-! ## C9: quality scores recomputed, never trusted from input -/

/-- Erase the derived quality score, keeping all raw metadata. -/
def eraseQualityScore (r : Repo) : Repo := { r with qualityScore := none }

/-- C9 (amended): the search enrichment and the enhanced enrichment
compute the attached quality score from raw metadata only — two inputs
differing only in their incoming `qualityScore` enrich identically — but
the per-repository combination analysis does use the input value: its
`codeQuality` field is the incoming `qualityScore`, defaulting to 0. -/
theorem enrichment_ignores_input_quality_score (now : ℤ) (r1 r2 : Repo)
    (h : eraseQualityScore r1 = eraseQualityScore r2) :
    enrichRepository now r1 = enrichRepository now r2
    ∧ (∀ (langOf : String → List (String × ℕ))
        (contribOf : String → List String),
        enhancedEnrichOne now langOf contribOf r1
          = enhancedEnrichOne now langOf contribOf r2)
    ∧ (analyzeRepository r1).codeQuality = r1.qualityScore.getD 0 := by
  cases r1 with
  | mk i1 n1 f1 d1 u1 l1 s1 k1 o1 m1 c1 t1 g1 v1 q1 p1 e1 =>
      cases r2 with
      | mk i2 n2 f2 d2 u2 l2 s2 k2 o2 m2 c2 t2 g2 v2 q2 p2 e2 =>
          simp only [eraseQualityScore, Repo.mk.injEq] at h
          obtain ⟨h1, h2, h3, h4, h5, h6, h7, h8, h9, h10, h11, h12, h13,
            h14, _, h16, h17⟩ := h
          subst_vars
          exact ⟨rfl, fun _ _ => rfl, rfl⟩

/-- `bareRepo` carrying an incoming quality score of 42. -/
def scoredBareRepo : Repo := { bareRepo with qualityScore := some 42 }

/-- C9 witness: the amended theorem at two concrete repositories that
differ only in the incoming quality score. -/
theorem enrichment_ignores_input_quality_score_witness :
    eraseQualityScore scoredBareRepo = eraseQualityScore bareRepo ∧
    (enrichRepository 0 scoredBareRepo = enrichRepository 0 bareRepo
      ∧ (∀ (langOf : String → List (String × ℕ))
          (contribOf : String → List String),
          enhancedEnrichOne 0 langOf contribOf scoredBareRepo
            = enhancedEnrichOne 0 langOf contribOf bareRepo)
      ∧ (analyzeRepository scoredBareRepo).codeQuality
          = scoredBareRepo.qualityScore.getD 0) :=
  ⟨rfl, enrichment_ignores_input_quality_score 0 scoredBareRepo bareRepo rfl⟩

/-- C9 counterexample: the combination analysis does not ignore the
incoming quality score — two repositories identical except for it
analyze differently, the input value flowing into `codeQuality`. -/
theorem combination_analysis_uses_input_quality_score :
    eraseQualityScore scoredBareRepo = eraseQualityScore bareRepo
    ∧ (analyzeRepository scoredBareRepo).codeQuality = 42
    ∧ (analyzeRepository bareRepo).codeQuality = 0
    ∧ analyzeRepository scoredBareRepo ≠ analyzeRepository bareRepo := by
  refine ⟨rfl, rfl, rfl, by decide⟩

/-! ## C10: exclusion-list invariants -/

theorem applyExclusionOps_nodup :
    ∀ (ops : List ExclusionOp) (s : EngineState), s.exclusionList.Nodup →
      (applyExclusionOps s ops).exclusionList.Nodup := by
  intro ops
  induction ops with
  | nil => intro s h; simpa [applyExclusionOps]
  | cons op rest ih =>
      intro s h
      show (applyExclusionOps (applyExclusionOp s op) rest).exclusionList.Nodup
      apply ih
      cases op with
      | add u =>
          show (addToExclusionList s u).exclusionList.Nodup
          unfold addToExclusionList
          by_cases hu : u ∈ s.exclusionList
          · simpa [hu]
          · simp only [if_neg hu]
            exact List.nodup_append.mpr
              ⟨h, List.nodup_singleton u,
               fun x hx hxu => hu (by simpa [List.mem_singleton.mp hxu] using hx)⟩
      | remove u =>
          show (removeFromExclusionList s u).exclusionList.Nodup
          exact List.Nodup.filter _ h

/-- C10: starting from the initial engine, any sequence of add/remove
operations keeps the exclusion list duplicate-free; adding an
already-present username leaves the state unchanged; reading the list
leaves the state unchanged (value semantics model the fresh copy), so a
later `buildSmartQuery` sees the same list. -/
theorem exclusion_list_invariants (ops : List ExclusionOp) (s : EngineState)
    (u : String) (q : String) (f : SearchFilters)
    (h : u ∈ s.exclusionList) :
    (applyExclusionOps initialEngineState ops).exclusionList.Nodup
    ∧ addToExclusionList s u = s
    ∧ getExclusionList s = (s.exclusionList, s)
    ∧ buildSmartQuery (getExclusionList s).1 q f
        = buildSmartQuery s.exclusionList q f := by
  refine ⟨applyExclusionOps_nodup ops initialEngineState
      (by simp [initialEngineState]), ?_, rfl, rfl⟩
  unfold addToExclusionList
  rw [if_pos h]

/-- C10 witness: the theorem at a concrete operation sequence and state. -/
theorem exclusion_list_invariants_witness :
    "bob" ∈ (EngineState.mk ["bob"]).exclusionList ∧
    ((applyExclusionOps initialEngineState
        [.add "alice", .add "alice", .remove "Gzeu"]).exclusionList.Nodup
      ∧ addToExclusionList (EngineState.mk ["bob"]) "bob"
          = EngineState.mk ["bob"]
      ∧ getExclusionList (EngineState.mk ["bob"])
          = (["bob"], EngineState.mk ["bob"])
      ∧ buildSmartQuery (getExclusionList (EngineState.mk ["bob"])).1 "q"
          emptyFilters.toSearchFilters
        = buildSmartQuery ["bob"] "q" emptyFilters.toSearchFilters) :=
  ⟨by decide,
   exclusion_list_invariants [.add "alice", .add "alice", .remove "Gzeu"]
     (EngineState.mk ["bob"]) "bob" "q" emptyFilters.toSearchFilters
     (by decide)⟩
